import Mathlib

/-!
Verification of the fail-log watcher repository (Observer.py, Observer_v2.py,
Observer_v3.py) against its specification.

The embedding models the program's pure core and its stateful watcher loop:

* bytes are `List Nat` (each entry one byte value); `bytes.lower()` is ASCII
  lowercasing of each byte, exactly as Python's `bytes.lower`;
* archive member names are `String`; `str.lower().endswith(".log")` is modelled
  by ASCII `Char.toLower` on the name's characters (the names in play are
  ASCII); `pathlib.Path(name).name` is the component after the last `/`
  (equal to pathlib's result for every name whose final component is a plain
  filename, in particular for every name ending in `.log`);
* `zipfile` reads are modelled by a `readable` flag on each member: reading
  an unreadable member raises (`ZipErr.badMember`), opening a corrupt archive
  raises (`ZipErr.badZip`); `extract_failed_logs` is a generator, so the
  writes it performed before an exception persist — the model returns the
  list of writes produced together with the exception, if any;
* the filesystem is a map `String → Option (List Nat)`; `write_bytes`
  overwrites, so a run of writes is a left fold (`applyWrites`);
* `_wait_until_stable` polls every 0.1 s with a 2.0 s stability timeout; time
  is discretised in poll ticks (1 tick = 0.1 s, `STABLE_TICKS = 20`), the
  file's state at each tick is an oracle `obs : Nat → Option Nat` (`none` =
  file absent, `some s` = present with size `s`).  The Python loop has no
  overall deadline, so the model is fuelled: `none` means the loop has not
  returned within the given number of iterations (for any fuel);
* `_enqueue` and the `_last_processed` dict are modelled as an explicit state
  machine over event traces; wall-clock times are in milliseconds
  (`DEBOUNCE_MS = 1000`).  Each event records its handling time `now`, the
  file-size oracle seen by its stability wait, the wall time `submitWall` at
  which `executor.submit` would run (handling time plus the duration of the
  stability wait) and the duration `dur` of the submitted extraction task in
  the pool.
-/

/-! ## Bytes and the failure predicate -/

/-- One byte of `bytes.lower()`: Python lowercases only ASCII `A`-`Z`. -/
def byteLower (b : Nat) : Nat := if 65 ≤ b ∧ b ≤ 90 then b + 32 else b

/-- `buf.lower()` on a byte string. -/
def bytesLower (buf : List Nat) : List Nat := buf.map byteLower

/-- UTF-8 bytes of an ASCII string literal (used to build concrete buffers). -/
def strBytes (s : String) : List Nat := s.toList.map Char.toNat

/-- Python's `needle in hay` on byte strings: contiguous-substring
containment, checked at every position. -/
def containsSeq (needle : List Nat) : List Nat → Bool
  | [] => needle.isPrefixOf []
  | x :: xs => needle.isPrefixOf (x :: xs) || containsSeq needle xs

/-- The failure keyword of Observer_v2.py / Observer_v3.py: `b"fail"`. -/
def failKeyword : List Nat := [102, 97, 105, 108]

/-- `Observer_v3.py` (and `Observer_v2.py`) `_contains_fail`:
`b"fail" in buf.lower()`. -/
def containsFail (buf : List Nat) : Bool :=
  containsSeq failKeyword (bytesLower buf)

/-- The failure keyword of Observer.py: `keyword = "test failed"`, UTF-8. -/
def keywordV1 : List Nat := strBytes "test failed"

/-- `Observer.py` `_contains_fail`: `keyword.encode("utf-8") in buf.lower()`. -/
def containsFailV1 (buf : List Nat) : Bool :=
  containsSeq keywordV1 (bytesLower buf)

/-! ## Member names, suffix check and basename -/

/-- `member.filename.lower().endswith(".log")` (ASCII lowercasing). -/
def endsWithLog (s : String) : Bool :=
  ".log".toList.isSuffixOf (s.toList.map Char.toLower)

/-- The characters after the last `/` of a character list. -/
def afterLastSlash (cs : List Char) : List Char :=
  (cs.reverse.takeWhile (fun c => c != '/')).reverse

/-- `pathlib.Path(name).name` for names whose final component is a plain
filename (every name whose lowercase form ends in `.log` is such a name):
the component after the last `/`. -/
def basename (s : String) : String := String.mk (afterLastSlash s.toList)

/-- `out_dir / Path(member.filename).name` with `/` as separator. -/
def destPath (outDir : String) (name : String) : String :=
  outDir ++ "/" ++ basename name

/-! ## Archive members and the extraction engine -/

/-- One zip member: its stored name, the directory flag
(`ZipInfo.is_dir()`), whether `z.open(member)` / `f.read()` succeeds, and
its decompressed bytes. -/
structure Member where
  filename : String
  isDir : Bool
  readable : Bool
  data : List Nat
deriving Repr, DecidableEq

/-- Exceptions the zip layer can raise. -/
inductive ZipErr
  | badZip
  | badMember
deriving Repr, DecidableEq

/-- `Observer_v3.py` `extract_failed_logs`, one loop step per member.
The generator's writes happen as it is iterated, so the writes produced
before an exception persist: the result is the list of
`(destination path, bytes)` writes performed, paired with the exception that
aborted the scan, if any. -/
def extract_failed_logs (outDir : String) :
    List Member → List (String × List Nat) × Option ZipErr
  | [] => ([], none)
  | m :: rest =>
    if !(endsWithLog m.filename) || m.isDir then
      extract_failed_logs outDir rest
    else if !m.readable then
      ([], some ZipErr.badMember)
    else if containsFail m.data then
      ((destPath outDir m.filename, m.data) :: (extract_failed_logs outDir rest).1,
        (extract_failed_logs outDir rest).2)
    else
      extract_failed_logs outDir rest

/-- A member that `extract_failed_logs` extracts (assuming it is reached and
readable): a non-directory `.log` member whose bytes contain the keyword. -/
def isMatch (m : Member) : Bool :=
  endsWithLog m.filename && !m.isDir && containsFail m.data

/-- `Observer.py` `extract_failed_logs`: same loop with the
`"test failed"` keyword. -/
def extract_failed_logs_v1 (outDir : String) :
    List Member → List (String × List Nat) × Option ZipErr
  | [] => ([], none)
  | m :: rest =>
    if !(endsWithLog m.filename) || m.isDir then
      extract_failed_logs_v1 outDir rest
    else if !m.readable then
      ([], some ZipErr.badMember)
    else if containsFailV1 m.data then
      ((destPath outDir m.filename, m.data) :: (extract_failed_logs_v1 outDir rest).1,
        (extract_failed_logs_v1 outDir rest).2)
    else
      extract_failed_logs_v1 outDir rest

/-! ## Archives, `_process_zip` and the worker pool -/

/-- A path handed to `zipfile.ZipFile`: either not a valid readable
container (`BadZipFile` on open) or a flat table of members. -/
inductive Archive
  | corrupt
  | valid (members : List Member)

/-- The outcome of one pool task. -/
structure ProcResult where
  writes : List (String × List Nat)
  logged : Option String
deriving Repr, DecidableEq

/-- `subdir = "fail"` in `ZipEventHandler._process_zip`. -/
def FAIL_SUBDIR : String := "fail"

/-- Opening the archive and running the extraction loop. -/
def openExtract (outDir : String) : Archive → List (String × List Nat) × Option ZipErr
  | Archive.corrupt => ([], some ZipErr.badZip)
  | Archive.valid ms => extract_failed_logs outDir ms

/-- `ZipEventHandler._process_zip`: runs the generator to exhaustion under a
catch-all `except`, logging any exception with the archive's path instead of
propagating it. -/
def process_zip (rootOut archivePath : String) (a : Archive) : ProcResult :=
  let r := openExtract (rootOut ++ "/" ++ FAIL_SUBDIR) a
  { writes := r.1
    logged := r.2.map (fun _ => "[ERROR] Failed to process " ++ archivePath) }

/-- The pool running one task per submitted archive; tasks are independent. -/
def processAll (rootOut : String) (jobs : List (String × Archive)) : List ProcResult :=
  jobs.map (fun j => process_zip rootOut j.1 j.2)

/-! ## The destination filesystem -/

/-- `write_bytes` overwrites; a run of writes folds over the filesystem. -/
def applyWrites (fs : String → Option (List Nat))
    (ws : List (String × List Nat)) : String → Option (List Nat) :=
  ws.foldl (fun acc w => fun q => if q = w.1 then some w.2 else acc q) fs

/-! ## `_wait_until_stable` -/

/-- `timeout = 2.0` seconds at `poll_interval = 0.1` seconds: 20 poll ticks. -/
def STABLE_TICKS : Nat := 20

/-- The polling loop of `_wait_until_stable`, one iteration per unit of fuel.
State: current tick `t`, last seen `size`, tick `start` at which the current
stability window began.  Each iteration first checks the `while` guard
(`time - start < timeout`), then sleeps one tick, re-checks existence and
re-reads the size, resetting the window on a size change.  `none` means the
loop has not returned within the given fuel. -/
def waitRun (obs : Nat → Option Nat) : Nat → Nat → Nat → Nat → Option Bool
  | 0, _, _, _ => none
  | fuel + 1, t, size, start =>
    if STABLE_TICKS ≤ t - start then some true
    else
      match obs (t + 1) with
      | none => some false
      | some s =>
        if s = size then waitRun obs fuel (t + 1) size start
        else waitRun obs fuel (t + 1) s (t + 1)

/-- `Observer_v3.py` `_wait_until_stable` over the size oracle `obs`:
returns `some false` at once if the file is initially absent, otherwise
runs the polling loop. -/
def wait_until_stable (obs : Nat → Option Nat) (fuel : Nat) : Option Bool :=
  match obs 0 with
  | none => some false
  | some s => waitRun obs fuel 0 s 0

/-- A file whose observed size strictly grows at every poll tick. -/
def growingObs : Nat → Option Nat := fun t => some t

/-! ## `ZipEventHandler._enqueue` and event traces -/

/-- `DEBOUNCE_SECONDS = 1.0`, in milliseconds. -/
def DEBOUNCE_MS : Nat := 1000

/-- The `_last_processed` dict: association list, most recent entry first. -/
abbrev LastMap := List (String × Nat)

/-- `self._last_processed.get(archive, 0)`. -/
def lookupLast (st : LastMap) (p : String) : Nat :=
  match st.find? (fun e => e.1 == p) with
  | some e => e.2
  | none => 0

/-- `self._last_processed[archive] = now`. -/
def insertLast (st : LastMap) (p : String) (t : Nat) : LastMap :=
  (p, t) :: st.filter (fun e => e.1 != p)

/-- One qualifying filesystem event as handled by `_enqueue`:
`path` and the wall-clock time `now` (ms) at which the handler runs;
`obs`/`fuel` drive its `_wait_until_stable` call; `submitWall` is the wall
time at which `executor.submit` runs if it does (it is `now` plus the
duration of the stability wait, so `now + 2000 ≤ submitWall`); `dur` is how
long the submitted extraction task runs in the pool. -/
structure WatchEvent where
  path : String
  now : Nat
  obs : Nat → Option Nat
  fuel : Nat
  submitWall : Nat
  dur : Nat

/-- `ZipEventHandler._enqueue`: debounce against the last recorded arrival
time, then the blocking stability wait, then record `now` and submit.
Returns the updated dict and whether a task was submitted. -/
def enqueue (st : LastMap) (e : WatchEvent) : LastMap × Bool :=
  let last := lookupLast st e.path
  if e.now < last + DEBOUNCE_MS then (st, false)
  else if wait_until_stable e.obs e.fuel ≠ some true then (st, false)
  else (insertLast st e.path e.now, true)

/-- A task submitted to the pool: archive path, the arrival time recorded in
`_last_processed`, and its execution interval `[start, stop)` in the pool. -/
structure Submission where
  path : String
  now : Nat
  start : Nat
  stop : Nat
deriving Repr, DecidableEq

/-- Folding `_enqueue` over a trace of qualifying events, collecting the
submitted tasks in order. -/
def runWatch : LastMap → List WatchEvent → LastMap × List Submission
  | st, [] => (st, [])
  | st, e :: es =>
    ((runWatch (enqueue st e).1 es).1,
      if (enqueue st e).2 then
        { path := e.path, now := e.now, start := e.submitWall,
          stop := e.submitWall + e.dur } :: (runWatch (enqueue st e).1 es).2
      else (runWatch (enqueue st e).1 es).2)

/-- Two submissions whose pool executions overlap in time. -/
def overlaps (a b : Submission) : Bool :=
  a.path == b.path && a.start < b.stop && b.start < a.stop

/-- Some two submissions in the list execute concurrently. -/
def hasOverlap : List Submission → Bool
  | [] => false
  | s :: rest => rest.any (overlaps s) || hasOverlap rest

/-! ## Concrete inputs used by witnesses and counterexamples -/

/-- The spec's `run42.zip` scenario: `boot.log` with `"...FAIL: timeout..."`
and `env.log` with `"...OK..."`. -/
def run42members : List Member :=
  [⟨"boot.log", false, true, strBytes "...FAIL: timeout..."⟩,
   ⟨"env.log", false, true, strBytes "...OK..."⟩]

/-- A small readable archive: one matching member, one non-matching. -/
def c1members : List Member :=
  [⟨"logs/boot.log", false, true, strBytes "xx FAIL yy"⟩,
   ⟨"env.log", false, true, strBytes "OK"⟩]

/-- An archive whose matching member name carries traversal segments. -/
def c2members : List Member :=
  [⟨"../../etc/pwn.log", false, true, strBytes "fail"⟩]

/-- An unreadable matching `.log` member. -/
def c7bad : Member := ⟨"a.log", false, false, strBytes "fail"⟩

/-- A readable matching `.log` member placed after the unreadable one. -/
def c7good : Member := ⟨"b.log", false, true, strBytes "has fail too"⟩

/-- Three matching members; the first two share the basename `x.log`. -/
def c10members : List Member :=
  [⟨"runA/x.log", false, true, strBytes "fail A"⟩,
   ⟨"runB/x.log", false, true, strBytes "fail B"⟩,
   ⟨"runC/y.log", false, true, strBytes "fail C"⟩]

/-- An event whose file is present with constant size: the stability wait
succeeds (returns `some true` at tick 20, within fuel 25). -/
def e4a : WatchEvent := ⟨"a.zip", 5000, fun _ => some 7, 25, 7000, 100⟩

/-- An event whose file vanishes at the first poll tick. -/
def e4b : WatchEvent :=
  ⟨"a.zip", 5000, fun t => if t = 0 then some 0 else none, 25, 7000, 100⟩

/-- An event arriving inside the debounce window of the empty map's default
timestamp 0. -/
def e3drop : WatchEvent := ⟨"a.zip", 500, fun _ => some 7, 25, 2500, 100⟩

/-- The spec's duplicate-notification scenario, with the wall-clock timing
the code imposes.  Notification 1 is handled at 10000 ms; the file grows for
5 poll ticks and then stabilises, so its stability wait returns `true` after
25 ticks (2.5 s) and `executor.submit` runs at 12500 ms.  Notification 2 was
generated 200 ms after the first, but the handler thread was blocked in the
first stability wait, so it is handled at 12500 ms — more than
`DEBOUNCE_MS` after the recorded arrival time 10000; its own wait sees a
stable file and submits at 14500 ms. -/
def c3trace : List WatchEvent :=
  [⟨"run42.zip", 10000, fun t => some (min t 5), 40, 12500, 100⟩,
   ⟨"run42.zip", 12500, fun _ => some 5, 40, 14500, 100⟩]

/-- Two events for the same archive 2100 ms apart.  Event 1 is handled at
10000 ms, its stability wait succeeds after 2 s, and the task is submitted
at 12000 ms and runs for 5 s in the pool (until 17000 ms).  Event 2 is
handled at 12100 ms (after the first handler returned), passes the debounce
(12100 ≥ 10000 + 1000), waits 2 s and is submitted at 14100 ms — while the
first task is still executing. -/
def c8trace : List WatchEvent :=
  [⟨"b.zip", 10000, fun _ => some 3, 40, 12000, 5000⟩,
   ⟨"b.zip", 12100, fun _ => some 3, 40, 14100, 100⟩]

/-! ## Helper lemmas: the extraction engine -/

/-- When every member is readable, the extraction loop neither raises nor
stops early: it writes exactly one artifact per matching member, in entry
order. -/
theorem extract_eq_of_readable (outDir : String) (ms : List Member)
    (h : ∀ m ∈ ms, m.readable = true) :
    extract_failed_logs outDir ms
      = ((ms.filter isMatch).map (fun m => (destPath outDir m.filename, m.data)), none) := by
  induction ms with
  | nil => rfl
  | cons m rest ih =>
    have hm : m.readable = true := h m (List.mem_cons_self m rest)
    have ih' := ih (fun x hx => h x (List.mem_cons_of_mem m hx))
    by_cases hs : endsWithLog m.filename
    · by_cases hd : m.isDir
      · simp [extract_failed_logs, List.filter_cons, isMatch, hs, hd, ih']
      · by_cases hc : containsFail m.data
        · simp [extract_failed_logs, List.filter_cons, isMatch, hs, hd, hm, hc, ih']
        · simp [extract_failed_logs, List.filter_cons, isMatch, hs, hd, hm, hc, ih']
    · simp [extract_failed_logs, List.filter_cons, isMatch, hs, ih']

/-- Every write the extraction loop performs (readable archive or not)
originates from a non-directory `.log` member containing the keyword, and
carries that member's exact bytes to that member's basename destination. -/
theorem extract_mem_origin (outDir : String) (ms : List Member) :
    ∀ w ∈ (extract_failed_logs outDir ms).1, ∃ m, m ∈ ms ∧ m.isDir = false ∧
      endsWithLog m.filename = true ∧ containsFail m.data = true ∧
      w = (destPath outDir m.filename, m.data) := by
  induction ms with
  | nil => intro w hw; simp [extract_failed_logs] at hw
  | cons m rest ih =>
    intro w hw
    by_cases hs : endsWithLog m.filename
    · by_cases hd : m.isDir
      · rw [show extract_failed_logs outDir (m :: rest)
            = extract_failed_logs outDir rest by simp [extract_failed_logs, hs, hd]] at hw
        obtain ⟨m', h1, h2, h3, h4, h5⟩ := ih w hw
        exact ⟨m', List.mem_cons_of_mem m h1, h2, h3, h4, h5⟩
      · by_cases hr : m.readable
        · by_cases hc : containsFail m.data
          · rw [show extract_failed_logs outDir (m :: rest)
                = ((destPath outDir m.filename, m.data) :: (extract_failed_logs outDir rest).1,
                    (extract_failed_logs outDir rest).2) by
                  simp [extract_failed_logs, hs, hd, hr, hc]] at hw
            rcases List.mem_cons.mp hw with h | h
            · exact ⟨m, List.mem_cons_self m rest, by simp [hd], hs, hc, h⟩
            · obtain ⟨m', h1, h2, h3, h4, h5⟩ := ih w h
              exact ⟨m', List.mem_cons_of_mem m h1, h2, h3, h4, h5⟩
          · rw [show extract_failed_logs outDir (m :: rest)
                = extract_failed_logs outDir rest by
                  simp [extract_failed_logs, hs, hd, hr, hc]] at hw
            obtain ⟨m', h1, h2, h3, h4, h5⟩ := ih w hw
            exact ⟨m', List.mem_cons_of_mem m h1, h2, h3, h4, h5⟩
        · rw [show extract_failed_logs outDir (m :: rest)
              = ([], some ZipErr.badMember) by simp [extract_failed_logs, hs, hd, hr]] at hw
          simp at hw
    · rw [show extract_failed_logs outDir (m :: rest)
          = extract_failed_logs outDir rest by simp [extract_failed_logs, hs]] at hw
      obtain ⟨m', h1, h2, h3, h4, h5⟩ := ih w hw
      exact ⟨m', List.mem_cons_of_mem m h1, h2, h3, h4, h5⟩

/-! ## Helper lemmas: basenames of `.log` members -/

/-- Nothing in the component after the last `/` is a `/`. -/
theorem slash_not_mem_afterLastSlash (cs : List Char) : '/' ∉ afterLastSlash cs := by
  intro h
  rw [afterLastSlash, List.mem_reverse] at h
  have := List.mem_takeWhile_imp h
  simp at this

/-- A name whose lowercase form ends in `.log` has a final component of at
least 4 characters (the 4 suffix characters lowercase to `.log`, none of
them can be `/`). -/
theorem afterLastSlash_length_of_log (s : String) (h : endsWithLog s = true) :
    4 ≤ (afterLastSlash s.toList).length := by
  rw [endsWithLog, List.isSuffixOf] at h
  have e1 : ".log".toList.reverse = ['g', 'o', 'l', '.'] := by decide
  rw [e1, ← List.map_reverse] at h
  rw [afterLastSlash, List.length_reverse]
  generalize s.toList.reverse = R at h ⊢
  rcases R with _ | ⟨c1, R⟩
  · simp [List.isPrefixOf] at h
  rcases R with _ | ⟨c2, R⟩
  · simp [List.isPrefixOf] at h
  rcases R with _ | ⟨c3, R⟩
  · simp [List.isPrefixOf] at h
  rcases R with _ | ⟨c4, R⟩
  · simp [List.isPrefixOf] at h
  simp only [List.map_cons, List.isPrefixOf, Bool.and_eq_true, beq_iff_eq] at h
  obtain ⟨h1, h2, h3, h4, -⟩ := h
  have hc1 : (c1 != '/') = true := by
    simp only [bne_iff_ne, ne_eq]; intro he; rw [he] at h1; exact absurd h1 (by decide)
  have hc2 : (c2 != '/') = true := by
    simp only [bne_iff_ne, ne_eq]; intro he; rw [he] at h2; exact absurd h2 (by decide)
  have hc3 : (c3 != '/') = true := by
    simp only [bne_iff_ne, ne_eq]; intro he; rw [he] at h3; exact absurd h3 (by decide)
  have hc4 : (c4 != '/') = true := by
    simp only [bne_iff_ne, ne_eq]; intro he; rw [he] at h4; exact absurd h4 (by decide)
  simp [List.takeWhile_cons, hc1, hc2, hc3, hc4]

/-- The basename of a member whose lowercase name ends in `.log` is a plain
filename: not empty, not `.`, not `..`, and free of `/`. -/
theorem basename_safe_of_log (s : String) (h : endsWithLog s = true) :
    basename s ≠ "" ∧ basename s ≠ "." ∧ basename s ≠ ".." ∧
      '/' ∉ (basename s).toList := by
  have hTL : (basename s).toList = afterLastSlash s.toList := rfl
  have hlen := afterLastSlash_length_of_log s h
  refine ⟨?_, ?_, ?_, ?_⟩
  · intro he
    have h0 : (basename s).toList.length = ("" : String).toList.length := by rw [he]
    rw [hTL] at h0
    have h1 : ("" : String).toList.length = 0 := by decide
    omega
  · intro he
    have h0 : (basename s).toList.length = ("." : String).toList.length := by rw [he]
    rw [hTL] at h0
    have h1 : ("." : String).toList.length = 1 := by decide
    omega
  · intro he
    have h0 : (basename s).toList.length = (".." : String).toList.length := by rw [he]
    rw [hTL] at h0
    have h1 : (".." : String).toList.length = 2 := by decide
    omega
  · rw [hTL]
    exact slash_not_mem_afterLastSlash s.toList

/-! ## Claim theorems: C1, C2 -/

/-- C1: for a readable archive, a non-directory member whose lowercase name
ends in `.log` has its artifact (its basename destination, its exact bytes)
among the writes of `extract_failed_logs` precisely when its bytes contain
the failure keyword; and every write of `extract_failed_logs` is the exact
bytes of some matching member at that member's basename destination — no
artifact is produced for a non-matching member. -/
theorem c1_extract_iff (outDir : String) (ms : List Member)
    (hr : ∀ m ∈ ms, m.readable = true) :
    (∀ m ∈ ms, m.isDir = false → endsWithLog m.filename = true →
      (((destPath outDir m.filename, m.data) ∈ (extract_failed_logs outDir ms).1)
        ↔ containsFail m.data = true))
    ∧ ∀ w ∈ (extract_failed_logs outDir ms).1, ∃ m, m ∈ ms ∧ m.isDir = false ∧
        endsWithLog m.filename = true ∧ containsFail m.data = true ∧
        w = (destPath outDir m.filename, m.data) := by
  constructor
  · intro m hm hd hs
    constructor
    · intro hin
      obtain ⟨m', _, _, _, h4, h5⟩ := extract_mem_origin outDir ms _ hin
      have hdata : m.data = m'.data := congrArg Prod.snd h5
      rw [hdata]
      exact h4
    · intro hc
      rw [extract_eq_of_readable outDir ms hr]
      exact List.mem_map_of_mem _ (List.mem_filter.mpr ⟨hm, by simp [isMatch, hs, hd, hc]⟩)
  · exact extract_mem_origin outDir ms

/-- Witness for C1 on a concrete two-member archive. -/
theorem c1_witness :
    (∀ m ∈ c1members, m.isDir = false → endsWithLog m.filename = true →
      (((destPath "out" m.filename, m.data) ∈ (extract_failed_logs "out" c1members).1)
        ↔ containsFail m.data = true))
    ∧ ∀ w ∈ (extract_failed_logs "out" c1members).1, ∃ m, m ∈ c1members ∧
        m.isDir = false ∧ endsWithLog m.filename = true ∧
        containsFail m.data = true ∧ w = (destPath "out" m.filename, m.data) :=
  c1_extract_iff "out" c1members (by decide)

/-- C2: every artifact `extract_failed_logs` writes goes to the output
directory joined with the producing member's basename, and that basename is
a plain nonempty filename (not `.`/`..`, no separator), so the written path
stays strictly inside the output root even for member names with traversal
segments. -/
theorem c2_path_confinement (outDir : String) (ms : List Member)
    (w : String × List Nat) (hw : w ∈ (extract_failed_logs outDir ms).1) :
    ∃ m, m ∈ ms ∧ w.1 = outDir ++ "/" ++ basename m.filename ∧
      basename m.filename ≠ "" ∧ basename m.filename ≠ "." ∧
      basename m.filename ≠ ".." ∧ '/' ∉ (basename m.filename).toList := by
  obtain ⟨m, h1, _, h3, _, h5⟩ := extract_mem_origin outDir ms w hw
  obtain ⟨b1, b2, b3, b4⟩ := basename_safe_of_log m.filename h3
  refine ⟨m, h1, ?_, b1, b2, b3, b4⟩
  rw [h5]
  rfl

/-- Witness for C2 on a member named `../../etc/pwn.log`: the artifact lands
at `out/pwn.log`, inside the root. -/
theorem c2_witness :
    ∃ m, m ∈ c2members ∧ "out/pwn.log" = "out" ++ "/" ++ basename m.filename ∧
      basename m.filename ≠ "" ∧ basename m.filename ≠ "." ∧
      basename m.filename ≠ ".." ∧ '/' ∉ (basename m.filename).toList :=
  c2_path_confinement "out" c2members ("out/pwn.log", strBytes "fail") (by decide)

/-! ## Claim theorems: C6, C7, C9 -/

/-- C6: a corrupt archive produces zero artifacts and a logged error naming
its path; the exception is absorbed inside the task, and all archives
submitted before and after it are processed exactly as they would be on
their own. -/
theorem c6_corrupt_archive_isolated (rootOut p : String)
    (pre post : List (String × Archive)) :
    processAll rootOut (pre ++ (p, Archive.corrupt) :: post)
      = processAll rootOut pre
        ++ { writes := [], logged := some ("[ERROR] Failed to process " ++ p) }
          :: processAll rootOut post := by
  simp [processAll, process_zip, openExtract]

/-- C7 counterexample: an archive whose first `.log` member is unreadable
and whose second `.log` member is readable and contains the keyword yields
no artifact at all — the unreadable member is not skipped, it aborts the
scan, so no artifact is produced for the later matching member `b.log`. -/
theorem c7_counterexample :
    extract_failed_logs "out" [c7bad, c7good] = ([], some ZipErr.badMember) := by
  decide

/-- C7 amended: an unreadable `.log` member aborts the archive's scan. The
artifacts already written for earlier members persist, the members after
the unreadable one are never scanned, and the exception surfaces at the
archive level, where `_process_zip` catches and logs it with the archive's
path. -/
theorem c7_member_abort_amended (outDir : String) (ms1 ms2 : List Member)
    (m : Member) (h1 : ∀ x ∈ ms1, x.readable = true) (h2 : m.readable = false)
    (h3 : m.isDir = false) (h4 : endsWithLog m.filename = true) :
    extract_failed_logs outDir (ms1 ++ m :: ms2)
      = ((extract_failed_logs outDir ms1).1, some ZipErr.badMember) := by
  induction ms1 with
  | nil =>
    simp [extract_failed_logs, h2, h3, h4]
  | cons x rest ih =>
    have hx : x.readable = true := h1 x (List.mem_cons_self x rest)
    have ih' := ih (fun y hy => h1 y (List.mem_cons_of_mem x hy))
    by_cases hs : endsWithLog x.filename
    · by_cases hd : x.isDir
      · simp [extract_failed_logs, hs, hd, ih']
      · by_cases hc : containsFail x.data
        · simp [extract_failed_logs, hs, hd, hx, hc, ih']
        · simp [extract_failed_logs, hs, hd, hx, hc, ih']
    · simp [extract_failed_logs, hs, ih']

/-- Witness for the amended C7 on a concrete archive. -/
theorem c7_witness :
    extract_failed_logs "out" ([c7good] ++ c7bad :: [c7good])
      = ((extract_failed_logs "out" [c7good]).1, some ZipErr.badMember) :=
  c7_member_abort_amended "out" [c7good] [c7good] c7bad (by decide) (by decide)
    (by decide) (by decide)

/-- C9 counterexample: with Observer.py's `_contains_fail` (whose keyword is
`"test failed"`, not `"fail"`), the `run42.zip` scenario produces no
artifact: `boot.log`'s bytes `"...FAIL: timeout..."` do not contain the
keyword, so the claim's "this holds for the predicate of each source
version" is false for Observer.py. -/
theorem c9_counterexample :
    containsFailV1 (strBytes "...FAIL: timeout...") = false
      ∧ extract_failed_logs_v1 "fail" run42members = ([], none) := by
  decide

/-- C9 amended: the failure predicate of Observer_v3.py and Observer_v2.py
is case-insensitive containment of `b"fail"` in the lowercased bytes, and
on `run42.zip` processing produces exactly the artifact `fail/boot.log`
with the exact original bytes and nothing for `env.log`; Observer.py's
predicate instead uses the keyword `"test failed"` and does not match this
scenario. -/
theorem c9_scenario_amended :
    process_zip "out" "run42.zip" (Archive.valid run42members)
      = { writes := [("out/fail/boot.log", strBytes "...FAIL: timeout...")],
          logged := none }
    ∧ containsFail (strBytes "...OK...") = false
    ∧ containsFailV1 (strBytes "...FAIL: timeout...") = false := by
  decide

/-! ## Helper lemmas: the stability probe -/

/-- If the polling loop returns `true` from a state whose current stability
window `[start, t]` showed a constant present size, then some 20-tick
(2-second) window of observations was constant and present. -/
theorem waitRun_true_window (obs : Nat → Option Nat) :
    ∀ fuel t size start, start ≤ t →
      (∀ u, start ≤ u → u ≤ t → obs u = some size) →
      waitRun obs fuel t size start = some true →
      ∃ e s, STABLE_TICKS ≤ e ∧
        ∀ u, e - STABLE_TICKS ≤ u → u ≤ e → obs u = some s := by
  intro fuel
  induction fuel with
  | zero => intro t size start _ _ h; simp [waitRun] at h
  | succ fl ih =>
    intro t size start hst hwin h
    rw [waitRun] at h
    split at h
    · rename_i hg
      refine ⟨t, size, by omega, ?_⟩
      intro u h1 h2
      exact hwin u (by omega) h2
    · rename_i hg
      split at h
      · simp at h
      · rename_i s hobs
        split at h
        · rename_i hsz
          refine ih (t + 1) size start (by omega) ?_ h
          intro u h1 h2
          rcases Nat.lt_or_ge u (t + 1) with hu | hu
          · exact hwin u h1 (by omega)
          · have hu1 : u = t + 1 := by omega
            rw [hu1, hobs, hsz]
        · rename_i hsz
          refine ih (t + 1) s (t + 1) (by omega) ?_ h
          intro u h1 h2
          have hu1 : u = t + 1 := by omega
          rw [hu1, hobs]

/-- If the polling loop returns `false`, the file was observed absent at
some poll tick. -/
theorem waitRun_false_vanished (obs : Nat → Option Nat) :
    ∀ fuel t size start, waitRun obs fuel t size start = some false →
      ∃ u, obs u = none := by
  intro fuel
  induction fuel with
  | zero => intro t size start h; simp [waitRun] at h
  | succ fl ih =>
    intro t size start h
    rw [waitRun] at h
    split at h
    · simp at h
    · split at h
      · rename_i hobs
        exact ⟨t + 1, hobs⟩
      · split at h
        · exact ih _ _ _ h
        · exact ih _ _ _ h

/-- `wait_until_stable` returns `true` only after a full 20-tick constant
window of present observations. -/
theorem wait_until_stable_true (obs : Nat → Option Nat) (fuel : Nat)
    (h : wait_until_stable obs fuel = some true) :
    ∃ e s, STABLE_TICKS ≤ e ∧
      ∀ u, e - STABLE_TICKS ≤ u → u ≤ e → obs u = some s := by
  rw [wait_until_stable] at h
  cases hobs : obs 0 with
  | none => rw [hobs] at h; simp at h
  | some s =>
    rw [hobs] at h
    refine waitRun_true_window obs fuel 0 s 0 (Nat.le_refl 0) ?_ h
    intro u h1 h2
    have : u = 0 := by omega
    rw [this, hobs]

/-- `wait_until_stable` returns `false` only when the file was absent at
some observation. -/
theorem wait_until_stable_false (obs : Nat → Option Nat) (fuel : Nat)
    (h : wait_until_stable obs fuel = some false) : ∃ u, obs u = none := by
  rw [wait_until_stable] at h
  cases hobs : obs 0 with
  | none => exact ⟨0, hobs⟩
  | some s =>
    rw [hobs] at h
    exact waitRun_false_vanished obs fuel 0 s 0 h

/-- For a file whose size changes at every poll, each loop iteration resets
the stability window, so the loop never returns, whatever the fuel. -/
theorem waitRun_growing_never (fuel : Nat) :
    ∀ t, waitRun growingObs fuel t t t = none := by
  induction fuel with
  | zero => intro t; rfl
  | succ fl ih =>
    intro t
    rw [waitRun]
    rw [if_neg (by simp [STABLE_TICKS, Nat.sub_self] : ¬ STABLE_TICKS ≤ t - t)]
    show (if t + 1 = t then waitRun growingObs fl (t + 1) t t
      else waitRun growingObs fl (t + 1) (t + 1) (t + 1)) = none
    rw [if_neg (by omega : ¬ t + 1 = t)]
    exact ih (t + 1)

/-! ## Claim theorems: C4, C5 -/

/-- C4: `_enqueue` submits a task only when its `_wait_until_stable` call
returned `true`, which happens only after the polled size was unchanged and
the file present for the full 2-second timeout (20 consecutive 100 ms poll
ticks, the window restarting at each size change); and when the probe
returns `false` the file was absent at some poll, no task is submitted and
the state is unchanged — the job is dropped without retry. -/
theorem c4_stability_gate (st : LastMap) (e : WatchEvent) :
    ((enqueue st e).2 = true →
      ∃ T s, STABLE_TICKS ≤ T ∧
        ∀ u, T - STABLE_TICKS ≤ u → u ≤ T → e.obs u = some s)
    ∧ (wait_until_stable e.obs e.fuel = some false →
        (∃ u, e.obs u = none) ∧ enqueue st e = (st, false)) := by
  constructor
  · intro hsub
    have hstable : wait_until_stable e.obs e.fuel = some true := by
      by_contra hne
      rw [enqueue] at hsub
      by_cases hd : e.now < lookupLast st e.path + DEBOUNCE_MS
      · rw [if_pos hd] at hsub; simp at hsub
      · rw [if_neg hd, if_pos hne] at hsub; simp at hsub
    exact wait_until_stable_true e.obs e.fuel hstable
  · intro hfalse
    refine ⟨wait_until_stable_false e.obs e.fuel hfalse, ?_⟩
    rw [enqueue]
    by_cases hd : e.now < lookupLast st e.path + DEBOUNCE_MS
    · rw [if_pos hd]
    · rw [if_neg hd, if_pos (by rw [hfalse]; simp)]

/-- Witness for C4: a constant-size file passes the gate and a 20-tick
constant window exists; a vanishing file makes the probe return `false`,
and the event is dropped with the state unchanged. -/
theorem c4_witness :
    (∃ T s, STABLE_TICKS ≤ T ∧
      ∀ u, T - STABLE_TICKS ≤ u → u ≤ T → e4a.obs u = some s)
    ∧ ((∃ u, e4b.obs u = none) ∧ enqueue [] e4b = ([], false)) :=
  ⟨(c4_stability_gate [] e4a).1 (by decide),
    (c4_stability_gate [] e4b).2 (by decide)⟩

/-- C5: the code contradicts the claim — for a file that never stabilises
(present at every poll, size strictly growing), `_wait_until_stable` does
not give up within the stability timeout: each size change resets the
2-second window and the loop polls indefinitely, never returning, for every
amount of fuel. -/
theorem c5_probe_never_returns (fuel : Nat) :
    wait_until_stable growingObs fuel = none := by
  rw [wait_until_stable]
  show waitRun growingObs fuel 0 0 0 = none
  exact waitRun_growing_never fuel 0

/-! ## Helper lemmas: `_enqueue` and the `_last_processed` dict -/

/-- An event inside the debounce window is dropped: no submission, no state
change. -/
theorem enqueue_drop (st : LastMap) (e : WatchEvent)
    (h : e.now < lookupLast st e.path + DEBOUNCE_MS) : enqueue st e = (st, false) := by
  rw [enqueue, if_pos h]

/-- An event outside the window whose stability wait does not return `true`
is dropped: no submission, no state change. -/
theorem enqueue_unstable (st : LastMap) (e : WatchEvent)
    (h1 : ¬ e.now < lookupLast st e.path + DEBOUNCE_MS)
    (h2 : wait_until_stable e.obs e.fuel ≠ some true) :
    enqueue st e = (st, false) := by
  rw [enqueue, if_neg h1, if_pos h2]

/-- An event outside the window whose stability wait returns `true` records
its arrival time and submits. -/
theorem enqueue_submit (st : LastMap) (e : WatchEvent)
    (h1 : ¬ e.now < lookupLast st e.path + DEBOUNCE_MS)
    (h2 : wait_until_stable e.obs e.fuel = some true) :
    enqueue st e = (insertLast st e.path e.now, true) := by
  rw [enqueue, if_neg h1, if_neg (fun hne => hne h2)]

/-- Looking up the key just stored returns the stored time. -/
theorem lookupLast_insert_self (st : LastMap) (p : String) (t : Nat) :
    lookupLast (insertLast st p t) p = t := by
  rw [lookupLast, insertLast, List.find?_cons_of_pos _ (by simp)]

/-- Storing a time under one key leaves other keys' lookups unchanged. -/
theorem find?_filter_ne (st : LastMap) (p q : String) (h : q ≠ p) :
    List.find? (fun e => e.1 == q) (st.filter (fun e => e.1 != p))
      = List.find? (fun e => e.1 == q) st := by
  induction st with
  | nil => rfl
  | cons a rest ih =>
    by_cases hq : a.1 = q
    · rw [List.filter_cons_of_pos (by simp [hq, h]),
        List.find?_cons_of_pos _ (by simp [hq]),
        List.find?_cons_of_pos _ (by simp [hq])]
    · by_cases hap : a.1 = p
      · rw [List.filter_cons_of_neg (by simp [hap]),
          List.find?_cons_of_neg _ (by simp [hq]), ih]
      · rw [List.filter_cons_of_pos (by simp [hap]),
          List.find?_cons_of_neg _ (by simp [hq]),
          List.find?_cons_of_neg _ (by simp [hq]), ih]

/-- Lookup under a different key is unchanged by an insert. -/
theorem lookupLast_insert_other (st : LastMap) (p q : String) (t : Nat)
    (h : q ≠ p) : lookupLast (insertLast st p t) q = lookupLast st q := by
  rw [lookupLast, insertLast, List.find?_cons_of_neg _ (by simp [Ne.symm h]),
    find?_filter_ne st p q h, lookupLast]

/-- Invariant of the watcher loop: for each path, the recorded
`_last_processed` time followed by the arrival times of the submissions for
that path forms a chain with gaps of at least the debounce window. -/
theorem runWatch_chain (p : String) :
    ∀ (es : List WatchEvent) (st : LastMap),
      List.Chain' (fun a b => a + DEBOUNCE_MS ≤ b)
        (lookupLast st p ::
          (((runWatch st es).2.filter (fun s => s.path == p)).map Submission.now)) := by
  intro es
  induction es with
  | nil => intro st; simp [runWatch]
  | cons e es ih =>
    intro st
    by_cases hd : e.now < lookupLast st e.path + DEBOUNCE_MS
    · have he := enqueue_drop st e hd
      simp only [runWatch, he]
      exact ih st
    · by_cases hw : wait_until_stable e.obs e.fuel = some true
      · have he := enqueue_submit st e hd hw
        simp only [runWatch, he, eq_self_iff_true, if_true]
        by_cases hp : e.path = p
        · subst hp
          rw [List.filter_cons_of_pos (by simp), List.map_cons]
          rw [show (⟨e.path, e.now, e.submitWall, e.submitWall + e.dur⟩ : Submission).now
            = e.now from rfl]
          rw [List.chain'_cons]
          refine ⟨by omega, ?_⟩
          have h2 := ih (insertLast st e.path e.now)
          rw [lookupLast_insert_self] at h2
          exact h2
        · rw [List.filter_cons_of_neg (by simp [hp])]
          have := ih (insertLast st e.path e.now)
          rw [lookupLast_insert_other st e.path p e.now (fun hc => hp hc.symm)] at this
          exact this
      · have he := enqueue_unstable st e hd hw
        simp only [runWatch, he]
        exact ih st

/-! ## Claim theorems: C3, C8 -/

/-- C3 counterexample: in the spec's scenario — two notifications for the
same still-growing archive 200 ms apart, handled in order by the watcher
with the timing the code imposes (`c3trace`) — the code submits two
extraction tasks for the path, not exactly one: by the time the second
notification is handled, the first stability wait (at least 2 s) has pushed
the clock past the 1 s debounce window. -/
theorem c3_counterexample :
    (runWatch [] c3trace).2.map Submission.path = ["run42.zip", "run42.zip"] := by
  decide

/-- C3 amended: an event arriving within the debounce window (1 s) of the
arrival time recorded by the last successfully enqueued job for the same
path is dropped, with no task submitted and no state change; but in the
two-rapid-notifications scenario for a still-growing file both
notifications fall outside the window, so two tasks are submitted once the
file is stable, not one. -/
theorem c3_debounce_amended (st : LastMap) (e : WatchEvent)
    (h : e.now < lookupLast st e.path + DEBOUNCE_MS) :
    enqueue st e = (st, false)
      ∧ (runWatch [] c3trace).2.map Submission.path = ["run42.zip", "run42.zip"] :=
  ⟨enqueue_drop st e h, by decide⟩

/-- Witness for the amended C3: a concrete event inside the window is
dropped. -/
theorem c3_witness :
    enqueue [] e3drop = ([], false)
      ∧ (runWatch [] c3trace).2.map Submission.path = ["run42.zip", "run42.zip"] :=
  c3_debounce_amended [] e3drop (by decide)

/-- C8 counterexample: a trace of two events for the same archive,
consistent with the code's timing (second handled after the first handler
returned, each submission 2 s after its handling time), in which the second
task is submitted at 14100 ms while the first, submitted at 12000 ms, is
still executing until 17000 ms — two tasks for the same path overlap, so
the debounce map does not provide in-flight exclusion. -/
theorem c8_counterexample : hasOverlap (runWatch [] c8trace).2 = true := by
  decide

/-- C8 amended: the `_last_processed` tracking guarantees only that the
recorded arrival times of successive submissions for the same path are at
least the debounce window (1 s) apart; it records no task completion, so it
does not prevent a second task for a path from being submitted while a
prior task for that path is still executing. -/
theorem c8_debounce_gap_amended (es : List WatchEvent) (p : String) :
    List.Chain' (fun a b => a + DEBOUNCE_MS ≤ b)
      (((runWatch [] es).2.filter (fun s => s.path == p)).map Submission.now) :=
  (runWatch_chain p es []).tail

/-! ## Helper lemmas: overwriting writes -/

/-- A fold of overwrites reads back as the most recent write at the path,
i.e. the first hit of `find?` on the reversed write list. -/
theorem applyWrites_eq_find (ws : List (String × List Nat)) :
    ∀ (fs : String → Option (List Nat)) (p : String),
      applyWrites fs ws p
        = match ws.reverse.find? (fun w => w.1 == p) with
          | some w => some w.2
          | none => fs p := by
  induction ws with
  | nil => intro fs p; rfl
  | cons w ws ih =>
    intro fs p
    have hstep : applyWrites fs (w :: ws) p
        = applyWrites (fun q => if q = w.1 then some w.2 else fs q) ws p := rfl
    rw [hstep, ih, List.reverse_cons, List.find?_append]
    cases hf : ws.reverse.find? (fun w => w.1 == p) with
    | some u => rw [Option.or_some]
    | none =>
      rw [Option.none_or]
      by_cases hw : w.1 = p
      · rw [List.find?_cons_of_pos _ (by simp [hw])]
        show (if p = w.1 then some w.2 else fs p) = some w.2
        rw [if_pos hw.symm]
      · rw [List.find?_cons_of_neg _ (by simp [hw]), List.find?_nil]
        show (if p = w.1 then some w.2 else fs p) = fs p
        rw [if_neg (fun hc => hw hc.symm)]

/-- `find?` through a `filter` is `find?` of the conjunction. -/
theorem find?_filter_and {α : Type} (l : List α) (q pr : α → Bool) :
    (l.filter q).find? pr = l.find? (fun a => q a && pr a) := by
  induction l with
  | nil => rfl
  | cons a t ih =>
    by_cases hq : q a
    · rw [List.filter_cons_of_pos hq]
      by_cases hp : pr a
      · rw [List.find?_cons_of_pos _ hp, List.find?_cons_of_pos _ (by simp [hq, hp])]
      · rw [List.find?_cons_of_neg _ hp, List.find?_cons_of_neg _ (by simp [hq, hp]), ih]
    · rw [List.filter_cons_of_neg hq, List.find?_cons_of_neg _ (by simp [hq]), ih]

/-! ## Claim theorem: C10 -/

/-- C10: in a readable archive, the extraction loop yields one artifact path
per matching member — the number of yields whose destination is `p` equals
the number of matching members whose basename destination is `p`, so
members sharing a basename all write to the same path — and after applying
the writes in order, the content on disk at `p` is the bytes of the last
matching member (in the archive's entry-table order) whose destination is
`p`: last writer wins within one archive. -/
theorem c10_last_writer_wins (outDir : String) (ms : List Member)
    (fs : String → Option (List Nat)) (p : String)
    (hr : ∀ m ∈ ms, m.readable = true) :
    (((extract_failed_logs outDir ms).1.map Prod.fst).count p
        = (ms.filter (fun m => isMatch m && (destPath outDir m.filename == p))).length)
    ∧ applyWrites fs (extract_failed_logs outDir ms).1 p
        = match ms.reverse.find? (fun m => isMatch m && (destPath outDir m.filename == p)) with
          | some m => some m.data
          | none => fs p := by
  have hw : (extract_failed_logs outDir ms).1
      = (ms.filter isMatch).map (fun m => (destPath outDir m.filename, m.data)) := by
    rw [extract_eq_of_readable outDir ms hr]
  constructor
  · rw [hw, List.map_map, List.count_eq_countP, List.countP_map,
      List.countP_eq_length_filter, List.filter_filter]
    congr 1
    apply List.filter_congr
    intro a _
    simp [Function.comp, Bool.and_comm]
  · rw [hw, applyWrites_eq_find, ← List.map_reverse, List.find?_map,
      ← List.filter_reverse, find?_filter_and]
    have hpred : (fun a => isMatch a
          && ((fun w => w.1 == p) ∘ fun m => (destPath outDir m.filename, m.data)) a)
        = (fun m => isMatch m && (destPath outDir m.filename == p)) := rfl
    rw [hpred]
    cases hf : ms.reverse.find? (fun m => isMatch m && (destPath outDir m.filename == p)) with
    | some u => rfl
    | none => rfl

/-- Witness for C10 on an archive with two matching members sharing the
basename `x.log`: both are yielded at `out/x.log`, and the final content
there is the second member's bytes. -/
theorem c10_witness :
    (((extract_failed_logs "out" c10members).1.map Prod.fst).count "out/x.log"
        = (c10members.filter
            (fun m => isMatch m && (destPath "out" m.filename == "out/x.log"))).length)
    ∧ applyWrites (fun _ => none) (extract_failed_logs "out" c10members).1 "out/x.log"
        = match c10members.reverse.find?
            (fun m => isMatch m && (destPath "out" m.filename == "out/x.log")) with
          | some m => some m.data
          | none => none :=
  c10_last_writer_wins "out" c10members (fun _ => none) "out/x.log" (by decide)
